import Mathlib

/-!
A shallow embedding of the streaming Atom entry decoder (`src/entry.rs`) together
with the primitives and sub-decoders it invokes, and theorems about its behaviour.

The external XML tokenizer is modelled as a list of parse events, consumed from
the front: reading an event is taking the head of the list, end of the list is
end of input (the tokenizer's `Event::Eof`), and a `malformed` event is the
tokenizer's syntax-error signal, which the `?` on `read_event` turns into a
decode failure.  Each decoding function takes the current event list and returns
the decoded value together with the remaining event list (the advanced cursor).
-/

namespace Atom

/-- Attribute key/value pairs as pre-decoded by the tokenizer. -/
abbrev Attrs := List (String × String)

/-- One XML parse event: start tag with attributes, end tag, character data, or
the tokenizer's malformed-markup signal.  End of input is the end of the list. -/
inductive XmlEvent where
  | startTag (name : String) (attrs : Attrs)
  | endTag (name : String)
  | charData (s : String)
  | malformed
deriving DecidableEq, Repr

/-- The decode error model (`error.rs`): `Eof` when the stream ends before a
currently-open element's end tag, `MalformedMarkup` propagated verbatim from the
tokenizer. -/
inductive Error where
  | eof
  | malformedMarkup
deriving DecidableEq, Repr

/-- Modelled from the spec: the Element Skipper (spec section 4.2), the
`reader.read_to_end(name)` collaborator invoked at `entry.rs:461`, whose code is
not under `src/`.  Called immediately after a start tag whose content is not of
interest; maintains a depth counter, incrementing on each start tag equal to
`name` and decrementing on each matching end tag, terminating only when depth
returns to the pre-call level; ignores all other event kinds; fails with `Eof`
if the stream ends first. -/
def read_to_end (name : String) (depth : Nat) : List XmlEvent → Except Error (List XmlEvent)
  | [] => .error .eof
  | .malformed :: _ => .error .malformedMarkup
  | .charData _ :: rest => read_to_end name depth rest
  | .startTag n _ :: rest =>
      if n = name then read_to_end name (depth + 1) rest
      else read_to_end name depth rest
  | .endTag n :: rest =>
      if n = name then
        match depth with
        | 0 => .ok rest
        | d + 1 => read_to_end name d rest
      else read_to_end name depth rest

/-- The "present but empty collapses to absent" rule of the Text Extractor
(spec section 4.1): absence if the accumulated text is empty. -/
def opt_text (t : String) : Option String := if t = "" then none else some t

/-- Modelled from the spec: the Text Extractor `atom_text` (spec section 4.1,
`util.rs`, not under `src/`), accumulator-passing form.  Called immediately
after a start tag expected to have only text content; concatenates every
character-data event in encounter order until the event stream yields the end
tag closing the element just entered (no depth tracking: spec section 4.2 calls
the skipper "the one place that must be depth-correct"); other events are
ignored; fails with `Eof` if the stream ends first. -/
def atom_text_go (acc : String) : List XmlEvent → Except Error (Option String × List XmlEvent)
  | [] => .error .eof
  | .malformed :: _ => .error .malformedMarkup
  | .charData t :: rest => atom_text_go (acc ++ t) rest
  | .startTag _ _ :: rest => atom_text_go acc rest
  | .endTag _ :: rest => .ok (opt_text acc, rest)

/-- Modelled from the spec: the Text Extractor entry point (spec section 4.1). -/
def atom_text (s : List XmlEvent) : Except Error (Option String × List XmlEvent) :=
  atom_text_go "" s

/-- The skipper consumes at least one event whenever it succeeds. -/
theorem read_to_end_lt (name : String) :
    ∀ (s : List XmlEvent) (depth : Nat) (s' : List XmlEvent),
      read_to_end name depth s = .ok s' → s'.length < s.length := by
  intro s
  induction s with
  | nil => intro d s' h; simp [read_to_end] at h
  | cons e rest ih =>
      intro d s' h
      cases e with
      | startTag n a =>
          simp only [read_to_end] at h
          split at h
          · exact Nat.lt_succ_of_lt (ih _ _ h)
          · exact Nat.lt_succ_of_lt (ih _ _ h)
      | endTag n =>
          simp only [read_to_end] at h
          split at h
          · cases d with
            | zero =>
                simp at h
                subst h
                exact Nat.lt_succ_self _
            | succ d' =>
                exact Nat.lt_succ_of_lt (ih _ _ h)
          · exact Nat.lt_succ_of_lt (ih _ _ h)
      | charData t =>
          simp only [read_to_end] at h
          exact Nat.lt_succ_of_lt (ih _ _ h)
      | malformed => simp [read_to_end] at h

/-- The text extractor consumes at least one event whenever it succeeds. -/
theorem atom_text_go_lt :
    ∀ (s : List XmlEvent) (acc : String) (t : Option String) (s' : List XmlEvent),
      atom_text_go acc s = .ok (t, s') → s'.length < s.length := by
  intro s
  induction s with
  | nil => intro acc t s' h; simp [atom_text_go] at h
  | cons e rest ih =>
      intro acc t s' h
      cases e with
      | startTag n a =>
          simp only [atom_text_go] at h
          exact Nat.lt_succ_of_lt (ih _ _ _ h)
      | endTag n =>
          simp only [atom_text_go] at h
          simp at h
          rw [h.2]
          exact Nat.lt_succ_self _
      | charData u =>
          simp only [atom_text_go] at h
          exact Nat.lt_succ_of_lt (ih _ _ _ h)
      | malformed => simp [atom_text_go] at h

/-- The text extractor consumes at least one event whenever it succeeds. -/
theorem atom_text_lt {s : List XmlEvent} {t : Option String} {s' : List XmlEvent}
    (h : atom_text s = .ok (t, s')) : s'.length < s.length :=
  atom_text_go_lt s "" t s' h

/-- First value of an attribute key among the start tag's pre-decoded pairs. -/
def find_attr (k : String) (a : Attrs) : Option String :=
  (a.find? (fun p => p.1 = k)).map (fun p => p.2)

/-- Modelled from the spec: body consumption for attribute-only leaves (spec
section 4.3: "any body content present is skipped rather than decoded",
defensively routing nested children through the Element Skipper) and for
out-of-line `content` references.  Consumes events up to and including the own
end tag. -/
def consume_body : List XmlEvent → Except Error (List XmlEvent)
  | [] => .error .eof
  | .malformed :: _ => .error .malformedMarkup
  | .charData _ :: rest => consume_body rest
  | .endTag _ :: rest => .ok rest
  | .startTag n _ :: rest =>
      match h : read_to_end n 0 rest with
      | .error e => .error e
      | .ok rest' => consume_body rest'
termination_by s => s.length
decreasing_by
  all_goals simp_wf
  all_goals exact Nat.lt_succ_of_lt (read_to_end_lt _ _ _ _ h)

/-- Body consumption consumes at least one event whenever it succeeds
(auxiliary form, by strong induction on the stream length bound). -/
theorem consume_body_lt_aux :
    ∀ (N : Nat) (s : List XmlEvent), s.length ≤ N →
      ∀ s', consume_body s = .ok s' → s'.length < s.length := by
  intro N
  induction N with
  | zero =>
      intro s hs s' h
      cases s with
      | nil => simp [consume_body] at h
      | cons e rest => simp at hs
  | succ N ih =>
      intro s hs s' h
      cases s with
      | nil => simp [consume_body] at h
      | cons e rest =>
          simp only [List.length_cons] at hs
          cases e with
          | malformed => simp [consume_body] at h
          | charData c =>
              simp only [consume_body] at h
              have := ih rest (by omega) s' h
              simp only [List.length_cons]
              omega
          | endTag n =>
              simp only [consume_body] at h
              simp at h
              subst h
              simp only [List.length_cons]
              omega
          | startTag n a =>
              simp only [consume_body] at h
              split at h
              · simp at h
              · rename_i rest' heq
                have h1 := read_to_end_lt n rest 0 rest' heq
                have h2 := ih rest' (by omega) s' h
                simp only [List.length_cons]
                omega

/-- Body consumption consumes at least one event whenever it succeeds. -/
theorem consume_body_lt {s s' : List XmlEvent} (h : consume_body s = .ok s') :
    s'.length < s.length :=
  consume_body_lt_aux s.length s (Nat.le_refl _) s' h

/-- The Person entity (spec section 3): name required defaulting to empty, URI
and email optional. -/
structure Person where
  name : String := ""
  uri : Option String := none
  email : Option String := none
deriving DecidableEq, Repr

/-- Modelled from the spec: the Person decoder loop (spec section 4.3,
`person.rs`, not under `src/`): an inner dispatch over `name`/`uri`/`email`
child elements with text bodies, unknown children skipped — structurally a
miniature composite decoder. -/
def Person.from_xml_loop (p : Person) : List XmlEvent → Except Error (Person × List XmlEvent)
  | [] => .error .eof
  | .malformed :: _ => .error .malformedMarkup
  | .charData _ :: rest => Person.from_xml_loop p rest
  | .endTag _ :: rest => .ok (p, rest)
  | .startTag n _ :: rest =>
      if n = "name" then
        match h : atom_text rest with
        | .error e => .error e
        | .ok (t, rest') => Person.from_xml_loop { p with name := t.getD "" } rest'
      else if n = "uri" then
        match h : atom_text rest with
        | .error e => .error e
        | .ok (t, rest') => Person.from_xml_loop { p with uri := t } rest'
      else if n = "email" then
        match h : atom_text rest with
        | .error e => .error e
        | .ok (t, rest') => Person.from_xml_loop { p with email := t } rest'
      else
        match h : read_to_end n 0 rest with
        | .error e => .error e
        | .ok rest' => Person.from_xml_loop p rest'
termination_by s => s.length
decreasing_by
  all_goals simp_wf
  all_goals first
    | exact Nat.lt_succ_of_lt (atom_text_lt h)
    | exact Nat.lt_succ_of_lt (read_to_end_lt _ _ _ _ h)

/-- Modelled from the spec: the Person decoder entry point; the attribute set on
its own start tag carries nothing a Person uses. -/
def Person.from_xml (s : List XmlEvent) (_ : Attrs) : Except Error (Person × List XmlEvent) :=
  Person.from_xml_loop {} s

/-- The Person decoder loop consumes at least one event whenever it succeeds
(auxiliary form, by strong induction on the stream length bound). -/
theorem person_from_xml_loop_lt_aux :
    ∀ (N : Nat) (s : List XmlEvent), s.length ≤ N →
      ∀ (p q : Person) (s' : List XmlEvent),
        Person.from_xml_loop p s = .ok (q, s') → s'.length < s.length := by
  intro N
  induction N with
  | zero =>
      intro s hs p q s' h
      cases s with
      | nil => simp [Person.from_xml_loop] at h
      | cons e rest => simp at hs
  | succ N ih =>
      intro s hs p q s' h
      cases s with
      | nil => simp [Person.from_xml_loop] at h
      | cons e rest =>
          simp only [List.length_cons] at hs
          cases e with
          | malformed => simp [Person.from_xml_loop] at h
          | charData c =>
              simp only [Person.from_xml_loop] at h
              have := ih rest (by omega) p q s' h
              simp only [List.length_cons]
              omega
          | endTag n =>
              simp only [Person.from_xml_loop] at h
              simp at h
              rw [h.2]
              simp only [List.length_cons]
              omega
          | startTag n a =>
              simp only [Person.from_xml_loop] at h
              split at h
              · split at h
                · simp at h
                · rename_i t rest' heq
                  have h1 := atom_text_lt heq
                  have h2 := ih rest' (by omega) _ q s' h
                  simp only [List.length_cons]
                  omega
              · split at h
                · split at h
                  · simp at h
                  · rename_i t rest' heq
                    have h1 := atom_text_lt heq
                    have h2 := ih rest' (by omega) _ q s' h
                    simp only [List.length_cons]
                    omega
                · split at h
                  · split at h
                    · simp at h
                    · rename_i t rest' heq
                      have h1 := atom_text_lt heq
                      have h2 := ih rest' (by omega) _ q s' h
                      simp only [List.length_cons]
                      omega
                  · split at h
                    · simp at h
                    · rename_i rest' heq
                      have h1 := read_to_end_lt n rest 0 rest' heq
                      have h2 := ih rest' (by omega) p q s' h
                      simp only [List.length_cons]
                      omega

/-- The Person decoder loop consumes at least one event whenever it succeeds. -/
theorem person_from_xml_loop_lt {p q : Person} {s s' : List XmlEvent}
    (h : Person.from_xml_loop p s = .ok (q, s')) : s'.length < s.length :=
  person_from_xml_loop_lt_aux s.length s (Nat.le_refl _) p q s' h

/-- The Person decoder consumes at least one event whenever it succeeds. -/
theorem person_from_xml_lt {q : Person} {a : Attrs} {s s' : List XmlEvent}
    (h : Person.from_xml s a = .ok (q, s')) : s'.length < s.length := by
  unfold Person.from_xml at h
  exact person_from_xml_loop_lt h

/-- The Category entity (spec section 3): term required, scheme and label
optional, all carried as attributes; no body text. -/
structure Category where
  term : String := ""
  scheme : Option String := none
  label : Option String := none
deriving DecidableEq, Repr

/-- Modelled from the spec: the Category decoder (spec section 4.3,
`category.rs`, not under `src/`): reads only the attributes of its own start
tag; any body content present is skipped rather than decoded. -/
def Category.from_xml (s : List XmlEvent) (a : Attrs) :
    Except Error (Category × List XmlEvent) :=
  match consume_body s with
  | .error e => .error e
  | .ok rest =>
      .ok ({ term := (find_attr "term" a).getD ""
             scheme := find_attr "scheme" a
             label := find_attr "label" a }, rest)

/-- The Category decoder consumes at least one event whenever it succeeds. -/
theorem category_from_xml_lt {s s' : List XmlEvent} {a : Attrs} {c : Category}
    (h : Category.from_xml s a = .ok (c, s')) : s'.length < s.length := by
  unfold Category.from_xml at h
  split at h
  · simp at h
  · rename_i rest heq
    simp at h
    rw [← h.2]
    exact consume_body_lt heq

/-- The Link entity (spec section 3): href required, the remaining attributes
optional; length kept as an opaque string; no body text. -/
structure Link where
  href : String := ""
  rel : Option String := none
  hreflang : Option String := none
  mime_type : Option String := none
  title : Option String := none
  length : Option String := none
deriving DecidableEq, Repr

/-- Modelled from the spec: the Link decoder (spec section 4.3, `link.rs`, not
under `src/`): reads only the attributes of its own start tag; any body content
present is skipped rather than decoded. -/
def Link.from_xml (s : List XmlEvent) (a : Attrs) :
    Except Error (Link × List XmlEvent) :=
  match consume_body s with
  | .error e => .error e
  | .ok rest =>
      .ok ({ href := (find_attr "href" a).getD ""
             rel := find_attr "rel" a
             hreflang := find_attr "hreflang" a
             mime_type := find_attr "type" a
             title := find_attr "title" a
             length := find_attr "length" a }, rest)

/-- The Link decoder consumes at least one event whenever it succeeds. -/
theorem link_from_xml_lt {s s' : List XmlEvent} {a : Attrs} {l : Link}
    (h : Link.from_xml s a = .ok (l, s')) : s'.length < s.length := by
  unfold Link.from_xml at h
  split at h
  · simp at h
  · rename_i rest heq
    simp at h
    rw [← h.2]
    exact consume_body_lt heq

/-- The Content entity (spec sections 3 and 9): a tagged variant — plain inline
text, inline content flagged with a declared media type, or an out-of-line
reference (`src` attribute plus optional media type); exactly one shape per
decode. -/
inductive Content where
  | inlineText (text : Option String)
  | inlineOther (mediaType : String) (text : Option String)
  | reference (src : String) (mediaType : Option String)
deriving DecidableEq, Repr

/-- Modelled from the spec: the Content decoder (spec section 4.3,
`content.rs`, not under `src/`): inspects the attributes on its own start tag
before deciding whether to consume a body — a `src` attribute selects the
out-of-line reference shape (body skipped, not decoded); otherwise the body is
decoded via the Text Extractor, flagged with the declared media type unless
that type is absent or plain text. -/
def Content.from_xml (s : List XmlEvent) (a : Attrs) :
    Except Error (Content × List XmlEvent) :=
  match find_attr "src" a with
  | some src =>
      match consume_body s with
      | .error e => .error e
      | .ok rest => .ok (.reference src (find_attr "type" a), rest)
  | none =>
      match find_attr "type" a with
      | none =>
          match atom_text s with
          | .error e => .error e
          | .ok (t, rest) => .ok (.inlineText t, rest)
      | some "text" =>
          match atom_text s with
          | .error e => .error e
          | .ok (t, rest) => .ok (.inlineText t, rest)
      | some mt =>
          match atom_text s with
          | .error e => .error e
          | .ok (t, rest) => .ok (.inlineOther mt t, rest)

/-- The Content decoder consumes at least one event whenever it succeeds. -/
theorem content_from_xml_lt {s s' : List XmlEvent} {a : Attrs} {c : Content}
    (h : Content.from_xml s a = .ok (c, s')) : s'.length < s.length := by
  unfold Content.from_xml at h
  split at h
  · split at h
    · simp at h
    · rename_i rest heq
      simp at h
      rw [← h.2]
      exact consume_body_lt heq
  · split at h
    · split at h
      · simp at h
      · rename_i t rest heq
        simp at h
        rw [← h.2]
        exact atom_text_lt heq
    · split at h
      · simp at h
      · rename_i t rest heq
        simp at h
        rw [← h.2]
        exact atom_text_lt heq
    · split at h
      · simp at h
      · rename_i t rest heq
        simp at h
        rw [← h.2]
        exact atom_text_lt heq

/-- The Source entity (spec section 3): a partial mirror of the feed's metadata
fields, all independently optional or defaultable. -/
structure Source where
  id : String := ""
  title : String := ""
  updated : String := ""
  authors : List Person := []
  categories : List Category := []
  contributors : List Person := []
  links : List Link := []
  rights : Option String := none
deriving DecidableEq, Repr

/-- Modelled from the spec: the Source decoder loop (spec sections 3 and 4.4,
`source.rs`, not under `src/`): a composite dispatch loop, structurally the
Entry pattern, over the Source field set. -/
def Source.from_xml_loop (src : Source) : List XmlEvent → Except Error (Source × List XmlEvent)
  | [] => .error .eof
  | .malformed :: _ => .error .malformedMarkup
  | .charData _ :: rest => Source.from_xml_loop src rest
  | .endTag _ :: rest => .ok (src, rest)
  | .startTag n a :: rest =>
      if n = "id" then
        match h : atom_text rest with
        | .error e => .error e
        | .ok (t, rest') => Source.from_xml_loop { src with id := t.getD "" } rest'
      else if n = "title" then
        match h : atom_text rest with
        | .error e => .error e
        | .ok (t, rest') => Source.from_xml_loop { src with title := t.getD "" } rest'
      else if n = "updated" then
        match h : atom_text rest with
        | .error e => .error e
        | .ok (t, rest') => Source.from_xml_loop { src with updated := t.getD "" } rest'
      else if n = "author" then
        match h : Person.from_xml rest a with
        | .error e => .error e
        | .ok (p, rest') =>
            Source.from_xml_loop { src with authors := src.authors ++ [p] } rest'
      else if n = "category" then
        match h : Category.from_xml rest a with
        | .error e => .error e
        | .ok (c, rest') =>
            Source.from_xml_loop { src with categories := src.categories ++ [c] } rest'
      else if n = "contributor" then
        match h : Person.from_xml rest a with
        | .error e => .error e
        | .ok (p, rest') =>
            Source.from_xml_loop { src with contributors := src.contributors ++ [p] } rest'
      else if n = "link" then
        match h : Link.from_xml rest a with
        | .error e => .error e
        | .ok (l, rest') =>
            Source.from_xml_loop { src with links := src.links ++ [l] } rest'
      else if n = "rights" then
        match h : atom_text rest with
        | .error e => .error e
        | .ok (t, rest') => Source.from_xml_loop { src with rights := t } rest'
      else
        match h : read_to_end n 0 rest with
        | .error e => .error e
        | .ok rest' => Source.from_xml_loop src rest'
termination_by s => s.length
decreasing_by
  all_goals simp_wf
  all_goals first
    | exact Nat.lt_succ_of_lt (atom_text_lt h)
    | exact Nat.lt_succ_of_lt (person_from_xml_lt h)
    | exact Nat.lt_succ_of_lt (category_from_xml_lt h)
    | exact Nat.lt_succ_of_lt (link_from_xml_lt h)
    | exact Nat.lt_succ_of_lt (read_to_end_lt _ _ _ _ h)

/-- Modelled from the spec: the Source decoder entry point. -/
def Source.from_xml (s : List XmlEvent) (_ : Attrs) :
    Except Error (Source × List XmlEvent) :=
  Source.from_xml_loop {} s

/-- The Source decoder loop consumes at least one event whenever it succeeds
(auxiliary form, by strong induction on the stream length bound). -/
theorem source_from_xml_loop_lt_aux :
    ∀ (N : Nat) (s : List XmlEvent), s.length ≤ N →
      ∀ (src q : Source) (s' : List XmlEvent),
        Source.from_xml_loop src s = .ok (q, s') → s'.length < s.length := by
  intro N
  induction N with
  | zero =>
      intro s hs src q s' h
      cases s with
      | nil => simp [Source.from_xml_loop] at h
      | cons e rest => simp at hs
  | succ N ih =>
      intro s hs src q s' h
      cases s with
      | nil => simp [Source.from_xml_loop] at h
      | cons e rest =>
          simp only [List.length_cons] at hs
          cases e with
          | malformed => simp [Source.from_xml_loop] at h
          | charData c =>
              simp only [Source.from_xml_loop] at h
              have := ih rest (by omega) src q s' h
              simp only [List.length_cons]
              omega
          | endTag n =>
              simp only [Source.from_xml_loop] at h
              simp at h
              rw [h.2]
              simp only [List.length_cons]
              omega
          | startTag n a =>
              simp only [Source.from_xml_loop] at h
              simp only [List.length_cons]
              repeat' split at h
              all_goals try exact absurd h (by simp)
              all_goals rename_i heq
              all_goals first
                | (have h1 := atom_text_lt heq
                   have h2 := ih _ (by omega) _ q s' h
                   omega)
                | (have h1 := person_from_xml_lt heq
                   have h2 := ih _ (by omega) _ q s' h
                   omega)
                | (have h1 := category_from_xml_lt heq
                   have h2 := ih _ (by omega) _ q s' h
                   omega)
                | (have h1 := link_from_xml_lt heq
                   have h2 := ih _ (by omega) _ q s' h
                   omega)
                | (have h1 := read_to_end_lt _ _ _ _ heq
                   have h2 := ih _ (by omega) _ q s' h
                   omega)

/-- The Source decoder consumes at least one event whenever it succeeds. -/
theorem source_from_xml_lt {q : Source} {a : Attrs} {s s' : List XmlEvent}
    (h : Source.from_xml s a = .ok (q, s')) : s'.length < s.length := by
  unfold Source.from_xml at h
  exact source_from_xml_loop_lt_aux s.length s (Nat.le_refl _) _ q s' h

/-- An entry in an Atom feed (`entry.rs`, struct `Entry`): the fields in
declaration order, with `Default` giving empty strings, empty lists and `None`. -/
structure Entry where
  title : String := ""
  id : String := ""
  updated : String := ""
  authors : List Person := []
  categories : List Category := []
  contributors : List Person := []
  links : List Link := []
  published : Option String := none
  source : Option Source := none
  summary : Option String := none
  rights : Option String := none
  content : Option Content := none
deriving DecidableEq, Repr

/-- The dispatch loop of `Entry::from_xml` (`entry.rs:425-470`): reads one event
per iteration; a start tag is dispatched on its name (`element.name()`,
compared byte-for-byte against the literal table), any end tag breaks the loop
returning the accumulated entry, end of input is the `Eof` error, everything
else is ignored.  Vec pushes become appends at the end of the list fields. -/
def Entry.from_xml_loop (entry : Entry) : List XmlEvent → Except Error (Entry × List XmlEvent)
  | [] => .error .eof
  | .malformed :: _ => .error .malformedMarkup
  | .charData _ :: rest => Entry.from_xml_loop entry rest
  | .endTag _ :: rest => .ok (entry, rest)
  | .startTag n a :: rest =>
      if n = "id" then
        match h : atom_text rest with
        | .error e => .error e
        | .ok (t, rest') => Entry.from_xml_loop { entry with id := t.getD "" } rest'
      else if n = "title" then
        match h : atom_text rest with
        | .error e => .error e
        | .ok (t, rest') => Entry.from_xml_loop { entry with title := t.getD "" } rest'
      else if n = "updated" then
        match h : atom_text rest with
        | .error e => .error e
        | .ok (t, rest') => Entry.from_xml_loop { entry with updated := t.getD "" } rest'
      else if n = "author" then
        match h : Person.from_xml rest a with
        | .error e => .error e
        | .ok (p, rest') =>
            Entry.from_xml_loop { entry with authors := entry.authors ++ [p] } rest'
      else if n = "category" then
        match h : Category.from_xml rest a with
        | .error e => .error e
        | .ok (c, rest') =>
            Entry.from_xml_loop { entry with categories := entry.categories ++ [c] } rest'
      else if n = "contributor" then
        match h : Person.from_xml rest a with
        | .error e => .error e
        | .ok (p, rest') =>
            Entry.from_xml_loop { entry with contributors := entry.contributors ++ [p] } rest'
      else if n = "link" then
        match h : Link.from_xml rest a with
        | .error e => .error e
        | .ok (l, rest') =>
            Entry.from_xml_loop { entry with links := entry.links ++ [l] } rest'
      else if n = "published" then
        match h : atom_text rest with
        | .error e => .error e
        | .ok (t, rest') => Entry.from_xml_loop { entry with published := t } rest'
      else if n = "source" then
        match h : Source.from_xml rest a with
        | .error e => .error e
        | .ok (src, rest') =>
            Entry.from_xml_loop { entry with source := some src } rest'
      else if n = "summary" then
        match h : atom_text rest with
        | .error e => .error e
        | .ok (t, rest') => Entry.from_xml_loop { entry with summary := t } rest'
      else if n = "rights" then
        match h : atom_text rest with
        | .error e => .error e
        | .ok (t, rest') => Entry.from_xml_loop { entry with rights := t } rest'
      else if n = "content" then
        match h : Content.from_xml rest a with
        | .error e => .error e
        | .ok (c, rest') =>
            Entry.from_xml_loop { entry with content := some c } rest'
      else
        match h : read_to_end n 0 rest with
        | .error e => .error e
        | .ok rest' => Entry.from_xml_loop entry rest'
termination_by s => s.length
decreasing_by
  all_goals simp_wf
  all_goals first
    | exact Nat.lt_succ_of_lt (atom_text_lt h)
    | exact Nat.lt_succ_of_lt (person_from_xml_lt h)
    | exact Nat.lt_succ_of_lt (category_from_xml_lt h)
    | exact Nat.lt_succ_of_lt (link_from_xml_lt h)
    | exact Nat.lt_succ_of_lt (source_from_xml_lt h)
    | exact Nat.lt_succ_of_lt (content_from_xml_lt h)
    | exact Nat.lt_succ_of_lt (read_to_end_lt _ _ _ _ h)

/-- `Entry::from_xml` (`entry.rs:421`): starts from `Entry::default()` and runs
the dispatch loop; the `Attributes` argument of the entry's own start tag is
bound to `_` in the source and never read. -/
def Entry.from_xml (s : List XmlEvent) (_ : Attrs) : Except Error (Entry × List XmlEvent) :=
  Entry.from_xml_loop {} s

/-- The names of the Entry decoder's dispatch table (`entry.rs:429-460`). -/
def entry_names : List String :=
  ["id", "title", "updated", "author", "category", "contributor", "link",
   "published", "source", "summary", "rights", "content"]

/-- A well-formed XML subtree: either character data or an element with
attributes and child subtrees. -/
inductive Node where
  | text (s : String)
  | elem (name : String) (attrs : Attrs) (children : List Node)

mutual

/-- The event-stream serialization of a subtree. -/
def flatten_node : Node → List XmlEvent
  | .text s => [.charData s]
  | .elem n a cs => .startTag n a :: (flatten_nodes cs ++ [.endTag n])

/-- The event-stream serialization of a list of sibling subtrees. -/
def flatten_nodes : List Node → List XmlEvent
  | [] => []
  | c :: cs => flatten_node c ++ flatten_nodes cs

end

mutual

/-- The skipper consumes a complete serialized subtree without effect on what
follows: its depth tracking is exact. -/
theorem read_to_end_flatten_node (t : Node) (nm : String) (d : Nat) (rest : List XmlEvent) :
    read_to_end nm d (flatten_node t ++ rest) = read_to_end nm d rest := by
  cases t with
  | text s => simp [flatten_node, read_to_end]
  | elem m a cs =>
      simp only [flatten_node, List.cons_append, List.append_assoc,
        List.singleton_append, List.nil_append]
      simp only [read_to_end]
      by_cases hm : m = nm
      · simp only [if_pos hm]
        rw [read_to_end_flatten_nodes cs nm (d + 1) (.endTag m :: rest)]
        subst hm
        simp [read_to_end]
      · simp only [if_neg hm]
        rw [read_to_end_flatten_nodes cs nm d (.endTag m :: rest)]
        simp [read_to_end, hm]

/-- The skipper consumes any complete list of serialized sibling subtrees. -/
theorem read_to_end_flatten_nodes (cs : List Node) (nm : String) (d : Nat)
    (rest : List XmlEvent) :
    read_to_end nm d (flatten_nodes cs ++ rest) = read_to_end nm d rest := by
  cases cs with
  | nil => simp [flatten_nodes]
  | cons c cs' =>
      simp only [flatten_nodes, List.append_assoc]
      rw [read_to_end_flatten_node c, read_to_end_flatten_nodes cs']

end

/-! One-step reduction lemmas for the Entry dispatch loop, one `ok` and one
`err` lemma per row of the dispatch table, conditioned on the outcome of the
primitive or sub-decoder the row invokes. -/

theorem entry_loop_id_ok (e : Entry) (a : Attrs) (t : Option String)
    (rest rest' : List XmlEvent) (h : atom_text rest = .ok (t, rest')) :
    Entry.from_xml_loop e (.startTag "id" a :: rest)
      = Entry.from_xml_loop { e with id := t.getD "" } rest' := by
  simp only [Entry.from_xml_loop]
  rw [h]
  simp

theorem entry_loop_id_err (e : Entry) (a : Attrs) (er : Error)
    (rest : List XmlEvent) (h : atom_text rest = .error er) :
    Entry.from_xml_loop e (.startTag "id" a :: rest) = .error er := by
  simp only [Entry.from_xml_loop]
  rw [h]
  simp

theorem entry_loop_title_ok (e : Entry) (a : Attrs) (t : Option String)
    (rest rest' : List XmlEvent) (h : atom_text rest = .ok (t, rest')) :
    Entry.from_xml_loop e (.startTag "title" a :: rest)
      = Entry.from_xml_loop { e with title := t.getD "" } rest' := by
  simp only [Entry.from_xml_loop]
  rw [h]
  simp

theorem entry_loop_title_err (e : Entry) (a : Attrs) (er : Error)
    (rest : List XmlEvent) (h : atom_text rest = .error er) :
    Entry.from_xml_loop e (.startTag "title" a :: rest) = .error er := by
  simp only [Entry.from_xml_loop]
  rw [h]
  simp

theorem entry_loop_updated_ok (e : Entry) (a : Attrs) (t : Option String)
    (rest rest' : List XmlEvent) (h : atom_text rest = .ok (t, rest')) :
    Entry.from_xml_loop e (.startTag "updated" a :: rest)
      = Entry.from_xml_loop { e with updated := t.getD "" } rest' := by
  simp only [Entry.from_xml_loop]
  rw [h]
  simp

theorem entry_loop_updated_err (e : Entry) (a : Attrs) (er : Error)
    (rest : List XmlEvent) (h : atom_text rest = .error er) :
    Entry.from_xml_loop e (.startTag "updated" a :: rest) = .error er := by
  simp only [Entry.from_xml_loop]
  rw [h]
  simp

theorem entry_loop_author_ok (e : Entry) (a : Attrs) (p : Person)
    (rest rest' : List XmlEvent) (h : Person.from_xml rest a = .ok (p, rest')) :
    Entry.from_xml_loop e (.startTag "author" a :: rest)
      = Entry.from_xml_loop { e with authors := e.authors ++ [p] } rest' := by
  simp only [Entry.from_xml_loop]
  rw [h]
  simp

theorem entry_loop_author_err (e : Entry) (a : Attrs) (er : Error)
    (rest : List XmlEvent) (h : Person.from_xml rest a = .error er) :
    Entry.from_xml_loop e (.startTag "author" a :: rest) = .error er := by
  simp only [Entry.from_xml_loop]
  rw [h]
  simp

theorem entry_loop_category_ok (e : Entry) (a : Attrs) (c : Category)
    (rest rest' : List XmlEvent) (h : Category.from_xml rest a = .ok (c, rest')) :
    Entry.from_xml_loop e (.startTag "category" a :: rest)
      = Entry.from_xml_loop { e with categories := e.categories ++ [c] } rest' := by
  simp only [Entry.from_xml_loop]
  rw [h]
  simp

theorem entry_loop_category_err (e : Entry) (a : Attrs) (er : Error)
    (rest : List XmlEvent) (h : Category.from_xml rest a = .error er) :
    Entry.from_xml_loop e (.startTag "category" a :: rest) = .error er := by
  simp only [Entry.from_xml_loop]
  rw [h]
  simp

theorem entry_loop_contributor_ok (e : Entry) (a : Attrs) (p : Person)
    (rest rest' : List XmlEvent) (h : Person.from_xml rest a = .ok (p, rest')) :
    Entry.from_xml_loop e (.startTag "contributor" a :: rest)
      = Entry.from_xml_loop { e with contributors := e.contributors ++ [p] } rest' := by
  simp only [Entry.from_xml_loop]
  rw [h]
  simp

theorem entry_loop_contributor_err (e : Entry) (a : Attrs) (er : Error)
    (rest : List XmlEvent) (h : Person.from_xml rest a = .error er) :
    Entry.from_xml_loop e (.startTag "contributor" a :: rest) = .error er := by
  simp only [Entry.from_xml_loop]
  rw [h]
  simp

theorem entry_loop_link_ok (e : Entry) (a : Attrs) (l : Link)
    (rest rest' : List XmlEvent) (h : Link.from_xml rest a = .ok (l, rest')) :
    Entry.from_xml_loop e (.startTag "link" a :: rest)
      = Entry.from_xml_loop { e with links := e.links ++ [l] } rest' := by
  simp only [Entry.from_xml_loop]
  rw [h]
  simp

theorem entry_loop_link_err (e : Entry) (a : Attrs) (er : Error)
    (rest : List XmlEvent) (h : Link.from_xml rest a = .error er) :
    Entry.from_xml_loop e (.startTag "link" a :: rest) = .error er := by
  simp only [Entry.from_xml_loop]
  rw [h]
  simp

theorem entry_loop_published_ok (e : Entry) (a : Attrs) (t : Option String)
    (rest rest' : List XmlEvent) (h : atom_text rest = .ok (t, rest')) :
    Entry.from_xml_loop e (.startTag "published" a :: rest)
      = Entry.from_xml_loop { e with published := t } rest' := by
  simp only [Entry.from_xml_loop]
  rw [h]
  simp

theorem entry_loop_published_err (e : Entry) (a : Attrs) (er : Error)
    (rest : List XmlEvent) (h : atom_text rest = .error er) :
    Entry.from_xml_loop e (.startTag "published" a :: rest) = .error er := by
  simp only [Entry.from_xml_loop]
  rw [h]
  simp

theorem entry_loop_source_ok (e : Entry) (a : Attrs) (src : Source)
    (rest rest' : List XmlEvent) (h : Source.from_xml rest a = .ok (src, rest')) :
    Entry.from_xml_loop e (.startTag "source" a :: rest)
      = Entry.from_xml_loop { e with source := some src } rest' := by
  simp only [Entry.from_xml_loop]
  rw [h]
  simp

theorem entry_loop_source_err (e : Entry) (a : Attrs) (er : Error)
    (rest : List XmlEvent) (h : Source.from_xml rest a = .error er) :
    Entry.from_xml_loop e (.startTag "source" a :: rest) = .error er := by
  simp only [Entry.from_xml_loop]
  rw [h]
  simp

theorem entry_loop_summary_ok (e : Entry) (a : Attrs) (t : Option String)
    (rest rest' : List XmlEvent) (h : atom_text rest = .ok (t, rest')) :
    Entry.from_xml_loop e (.startTag "summary" a :: rest)
      = Entry.from_xml_loop { e with summary := t } rest' := by
  simp only [Entry.from_xml_loop]
  rw [h]
  simp

theorem entry_loop_summary_err (e : Entry) (a : Attrs) (er : Error)
    (rest : List XmlEvent) (h : atom_text rest = .error er) :
    Entry.from_xml_loop e (.startTag "summary" a :: rest) = .error er := by
  simp only [Entry.from_xml_loop]
  rw [h]
  simp

theorem entry_loop_rights_ok (e : Entry) (a : Attrs) (t : Option String)
    (rest rest' : List XmlEvent) (h : atom_text rest = .ok (t, rest')) :
    Entry.from_xml_loop e (.startTag "rights" a :: rest)
      = Entry.from_xml_loop { e with rights := t } rest' := by
  simp only [Entry.from_xml_loop]
  rw [h]
  simp

theorem entry_loop_rights_err (e : Entry) (a : Attrs) (er : Error)
    (rest : List XmlEvent) (h : atom_text rest = .error er) :
    Entry.from_xml_loop e (.startTag "rights" a :: rest) = .error er := by
  simp only [Entry.from_xml_loop]
  rw [h]
  simp

theorem entry_loop_content_ok (e : Entry) (a : Attrs) (c : Content)
    (rest rest' : List XmlEvent) (h : Content.from_xml rest a = .ok (c, rest')) :
    Entry.from_xml_loop e (.startTag "content" a :: rest)
      = Entry.from_xml_loop { e with content := some c } rest' := by
  simp only [Entry.from_xml_loop]
  rw [h]
  simp

theorem entry_loop_content_err (e : Entry) (a : Attrs) (er : Error)
    (rest : List XmlEvent) (h : Content.from_xml rest a = .error er) :
    Entry.from_xml_loop e (.startTag "content" a :: rest) = .error er := by
  simp only [Entry.from_xml_loop]
  rw [h]
  simp

theorem entry_loop_unknown_ok (e : Entry) (n : String) (a : Attrs)
    (rest rest' : List XmlEvent) (hn : n ∉ entry_names)
    (h : read_to_end n 0 rest = .ok rest') :
    Entry.from_xml_loop e (.startTag n a :: rest) = Entry.from_xml_loop e rest' := by
  simp only [entry_names, List.mem_cons, List.not_mem_nil, or_false, not_or] at hn
  obtain ⟨h1, h2, h3, h4, h5, h6, h7, h8, h9, h10, h11, h12⟩ := hn
  simp only [Entry.from_xml_loop]
  rw [h]
  simp [h1, h2, h3, h4, h5, h6, h7, h8, h9, h10, h11, h12]

theorem entry_loop_unknown_err (e : Entry) (n : String) (a : Attrs) (er : Error)
    (rest : List XmlEvent) (hn : n ∉ entry_names)
    (h : read_to_end n 0 rest = .error er) :
    Entry.from_xml_loop e (.startTag n a :: rest) = .error er := by
  simp only [entry_names, List.mem_cons, List.not_mem_nil, or_false, not_or] at hn
  obtain ⟨h1, h2, h3, h4, h5, h6, h7, h8, h9, h10, h11, h12⟩ := hn
  simp only [Entry.from_xml_loop]
  rw [h]
  simp [h1, h2, h3, h4, h5, h6, h7, h8, h9, h10, h11, h12]

/-! Evaluation helpers for the primitives and sub-decoders on the small
well-formed element shapes the claims exercise. -/

theorem opt_text_getD (t : String) : (opt_text t).getD "" = t := by
  by_cases h : t = "" <;> simp [opt_text, h]

theorem atom_text_text_end (t n : String) (s : List XmlEvent) :
    atom_text (.charData t :: .endTag n :: s) = .ok (opt_text t, s) := by
  simp [atom_text, atom_text_go]

theorem atom_text_end (n : String) (s : List XmlEvent) :
    atom_text (.endTag n :: s) = .ok (none, s) := by
  simp [atom_text, atom_text_go, opt_text]

theorem person_name_only (a : Attrs) (t n : String) (s : List XmlEvent) :
    Person.from_xml (.startTag "name" [] :: .charData t :: .endTag "name" :: .endTag n :: s) a
      = .ok ({ name := t }, s) := by
  simp [Person.from_xml, Person.from_xml_loop, atom_text, atom_text_go, opt_text_getD]

theorem category_attrs_only (a : Attrs) (n : String) (s : List XmlEvent) :
    Category.from_xml (.endTag n :: s) a
      = .ok ({ term := (find_attr "term" a).getD ""
               scheme := find_attr "scheme" a
               label := find_attr "label" a }, s) := by
  simp [Category.from_xml, consume_body]

theorem link_attrs_only (a : Attrs) (n : String) (s : List XmlEvent) :
    Link.from_xml (.endTag n :: s) a
      = .ok ({ href := (find_attr "href" a).getD ""
               rel := find_attr "rel" a
               hreflang := find_attr "hreflang" a
               mime_type := find_attr "type" a
               title := find_attr "title" a
               length := find_attr "length" a }, s) := by
  simp [Link.from_xml, consume_body]

theorem source_id_only (a : Attrs) (v n : String) (s : List XmlEvent) :
    Source.from_xml
        (.startTag "id" [] :: .charData v :: .endTag "id" :: .endTag n :: s) a
      = .ok ({ id := v }, s) := by
  simp [Source.from_xml, Source.from_xml_loop, atom_text, atom_text_go, opt_text_getD]

theorem content_src_ref (v n : String) (s : List XmlEvent) :
    Content.from_xml (.endTag n :: s) [("src", v), ("type", "text/html")]
      = .ok (.reference v (some "text/html"), s) := by
  simp [Content.from_xml, consume_body, find_attr]

/-- A stream with no end-tag event and no tokenizer-error signal: the shape of
a document truncated before any end tag. -/
def no_end_no_err : List XmlEvent → Bool
  | [] => true
  | .endTag _ :: _ => false
  | .malformed :: _ => false
  | .startTag _ _ :: rest => no_end_no_err rest
  | .charData _ :: rest => no_end_no_err rest

theorem atom_text_go_trunc :
    ∀ (s : List XmlEvent), no_end_no_err s = true →
      ∀ acc, atom_text_go acc s = .error .eof := by
  intro s
  induction s with
  | nil => intro h acc; simp [atom_text_go]
  | cons e rest ih =>
      intro h acc
      cases e with
      | endTag n => simp [no_end_no_err] at h
      | malformed => simp [no_end_no_err] at h
      | startTag n a =>
          simp only [no_end_no_err] at h
          simp only [atom_text_go]
          exact ih h acc
      | charData t =>
          simp only [no_end_no_err] at h
          simp only [atom_text_go]
          exact ih h _

theorem atom_text_trunc {s : List XmlEvent} (h : no_end_no_err s = true) :
    atom_text s = .error .eof :=
  atom_text_go_trunc s h ""

theorem read_to_end_trunc (nm : String) :
    ∀ (s : List XmlEvent), no_end_no_err s = true →
      ∀ d, read_to_end nm d s = .error .eof := by
  intro s
  induction s with
  | nil => intro h d; simp [read_to_end]
  | cons e rest ih =>
      intro h d
      cases e with
      | endTag n => simp [no_end_no_err] at h
      | malformed => simp [no_end_no_err] at h
      | startTag n a =>
          simp only [no_end_no_err] at h
          simp only [read_to_end]
          split
          · exact ih h _
          · exact ih h _
      | charData t =>
          simp only [no_end_no_err] at h
          simp only [read_to_end]
          exact ih h _

theorem consume_body_trunc :
    ∀ (s : List XmlEvent), no_end_no_err s = true → consume_body s = .error .eof := by
  intro s
  induction s with
  | nil => intro h; simp [consume_body]
  | cons e rest ih =>
      intro h
      cases e with
      | endTag n => simp [no_end_no_err] at h
      | malformed => simp [no_end_no_err] at h
      | startTag n a =>
          simp only [no_end_no_err] at h
          simp only [consume_body]
          rw [read_to_end_trunc n rest h 0]
      | charData t =>
          simp only [no_end_no_err] at h
          simp only [consume_body]
          exact ih h

theorem person_trunc :
    ∀ (s : List XmlEvent), no_end_no_err s = true →
      ∀ (p : Person), Person.from_xml_loop p s = .error .eof := by
  intro s
  induction s with
  | nil => intro h p; simp [Person.from_xml_loop]
  | cons e rest ih =>
      intro h p
      cases e with
      | endTag n => simp [no_end_no_err] at h
      | malformed => simp [no_end_no_err] at h
      | startTag n a =>
          simp only [no_end_no_err] at h
          simp only [Person.from_xml_loop]
          rw [atom_text_trunc h, read_to_end_trunc n rest h 0]
          simp
      | charData t =>
          simp only [no_end_no_err] at h
          simp only [Person.from_xml_loop]
          exact ih h p

theorem category_trunc {s : List XmlEvent} {a : Attrs} (h : no_end_no_err s = true) :
    Category.from_xml s a = .error .eof := by
  unfold Category.from_xml
  rw [consume_body_trunc s h]

theorem link_trunc {s : List XmlEvent} {a : Attrs} (h : no_end_no_err s = true) :
    Link.from_xml s a = .error .eof := by
  unfold Link.from_xml
  rw [consume_body_trunc s h]

theorem content_trunc {s : List XmlEvent} {a : Attrs} (h : no_end_no_err s = true) :
    Content.from_xml s a = .error .eof := by
  have ha := atom_text_trunc h
  have hc := consume_body_trunc s h
  unfold Content.from_xml
  rcases hsrc : find_attr "src" a with _ | v
  · rcases htyp : find_attr "type" a with _ | mt
    · simp [hsrc, htyp, ha]
    · by_cases hmt : mt = "text"
      · subst hmt
        simp [hsrc, htyp, ha]
      · simp [hsrc, htyp, ha, hmt]
  · simp [hsrc, hc]

theorem source_trunc :
    ∀ (s : List XmlEvent), no_end_no_err s = true →
      ∀ (src : Source), Source.from_xml_loop src s = .error .eof := by
  intro s
  induction s with
  | nil => intro h src; simp [Source.from_xml_loop]
  | cons e rest ih =>
      intro h src
      cases e with
      | endTag n => simp [no_end_no_err] at h
      | malformed => simp [no_end_no_err] at h
      | startTag n a =>
          simp only [no_end_no_err] at h
          simp only [Source.from_xml_loop]
          rw [atom_text_trunc h, read_to_end_trunc n rest h 0,
            show Person.from_xml rest a = .error .eof from person_trunc rest h {},
            show Category.from_xml rest a = .error .eof from category_trunc h,
            show Link.from_xml rest a = .error .eof from link_trunc h]
          simp
      | charData t =>
          simp only [no_end_no_err] at h
          simp only [Source.from_xml_loop]
          exact ih h src

theorem entry_trunc :
    ∀ (s : List XmlEvent), no_end_no_err s = true →
      ∀ (e : Entry), Entry.from_xml_loop e s = .error .eof := by
  intro s
  induction s with
  | nil => intro h e; simp [Entry.from_xml_loop]
  | cons ev rest ih =>
      intro h e
      cases ev with
      | endTag n => simp [no_end_no_err] at h
      | malformed => simp [no_end_no_err] at h
      | startTag n a =>
          simp only [no_end_no_err] at h
          simp only [Entry.from_xml_loop]
          rw [atom_text_trunc h, read_to_end_trunc n rest h 0,
            show Person.from_xml rest a = .error .eof from person_trunc rest h {},
            show Category.from_xml rest a = .error .eof from category_trunc h,
            show Link.from_xml rest a = .error .eof from link_trunc h,
            show Source.from_xml rest a = .error .eof from source_trunc rest h {},
            show Content.from_xml rest a = .error .eof from content_trunc h]
          simp
      | charData t =>
          simp only [no_end_no_err] at h
          simp only [Entry.from_xml_loop]
          exact ih h e

end Atom

namespace Atom

/-- C1: at any decoder state (any accumulated entry, hence any position among
the entry's children) and for any continuation, inserting a child element whose
name is not in the Entry dispatch table, with an arbitrary subtree and
attributes, leaves the decode of the remainder — and hence every field of the
resulting Entry — unchanged, and causes no failure. -/
theorem unknown_child_inert (e : Entry) (u : String) (a : Attrs) (cs : List Node)
    (s : List XmlEvent) (hu : u ∉ entry_names) :
    Entry.from_xml_loop e (.startTag u a :: (flatten_nodes cs ++ (.endTag u :: s)))
      = Entry.from_xml_loop e s := by
  have hskip : read_to_end u 0 (flatten_nodes cs ++ (.endTag u :: s)) = .ok s := by
    rw [read_to_end_flatten_nodes]
    simp [read_to_end]
  exact entry_loop_unknown_ok e u a _ s hu hskip

/-- C1 witness: a concrete unknown element with a nested subtree at a concrete
decoder position. -/
theorem unknown_child_inert_witness :
    "unknownTag" ∉ entry_names ∧
      Entry.from_xml_loop {}
          (.startTag "unknownTag" [] ::
            (flatten_nodes [Node.elem "deep" [] []] ++ (.endTag "unknownTag" :: [.endTag "entry"])))
        = Entry.from_xml_loop {} [.endTag "entry"] :=
  ⟨by simp [entry_names],
    unknown_child_inert {} "unknownTag" [] [Node.elem "deep" [] []] [.endTag "entry"]
      (by simp [entry_names])⟩

/-- C2 counterexample: the events of `<summary><x></x></summary>` followed by
end of input — the end tag closing the entry element is never seen, yet
`Entry::from_xml` succeeds with a default entry instead of failing with `Eof`:
the text extractor stops at the first end tag (`</x>`), so the entry loop takes
`</summary>` as its own terminator. -/
theorem truncated_entry_accepted :
    Entry.from_xml
        [.startTag "summary" [], .startTag "x" [], .endTag "x", .endTag "summary"] []
      = .ok ({}, [])
    ∧ Entry.from_xml
        [.startTag "summary" [], .startTag "x" [], .endTag "x", .endTag "summary"] []
      ≠ .error .eof := by
  have h : Entry.from_xml
      [.startTag "summary" [], .startTag "x" [], .endTag "x", .endTag "summary"] []
      = .ok ({}, []) := by
    simp [Entry.from_xml, Entry.from_xml_loop, atom_text, atom_text_go, opt_text]
  exact ⟨h, by rw [h]; simp⟩

/-- C2 amended: for every event stream containing no end-tag event at all (and
no tokenizer-error signal), `Entry::from_xml` fails with `Eof` — never a
partially populated Entry. -/
theorem no_end_tag_eof (s : List XmlEvent) (a : Attrs) (h : no_end_no_err s = true) :
    Entry.from_xml s a = .error .eof := by
  unfold Entry.from_xml
  exact entry_trunc s h {}

/-- C2 witness: a concrete truncated stream. -/
theorem no_end_tag_eof_witness :
    no_end_no_err [.startTag "title" [], .charData "T"] = true
    ∧ Entry.from_xml [.startTag "title" [], .charData "T"] [] = .error .eof :=
  ⟨by rfl, no_end_tag_eof [.startTag "title" [], .charData "T"] [] (by rfl)⟩

/-- C3: for each single-valued optional field (published, summary, rights,
source, content), two successive occurrences at any decoder state leave the
field holding the value decoded from the second occurrence — last-write-wins,
and no failure is raised. -/
theorem single_valued_last_write_wins (e : Entry) (a : Attrs) (t1 t2 v1 v2 : String)
    (s : List XmlEvent) :
    (Entry.from_xml_loop e
        (.startTag "published" a :: .charData t1 :: .endTag "published" ::
          .startTag "published" a :: .charData t2 :: .endTag "published" :: s)
      = Entry.from_xml_loop { e with published := opt_text t2 } s)
    ∧ (Entry.from_xml_loop e
        (.startTag "summary" a :: .charData t1 :: .endTag "summary" ::
          .startTag "summary" a :: .charData t2 :: .endTag "summary" :: s)
      = Entry.from_xml_loop { e with summary := opt_text t2 } s)
    ∧ (Entry.from_xml_loop e
        (.startTag "rights" a :: .charData t1 :: .endTag "rights" ::
          .startTag "rights" a :: .charData t2 :: .endTag "rights" :: s)
      = Entry.from_xml_loop { e with rights := opt_text t2 } s)
    ∧ (Entry.from_xml_loop e
        (.startTag "source" a ::
          .startTag "id" [] :: .charData v1 :: .endTag "id" :: .endTag "source" ::
          .startTag "source" a ::
          .startTag "id" [] :: .charData v2 :: .endTag "id" :: .endTag "source" :: s)
      = Entry.from_xml_loop { e with source := some { id := v2 } } s)
    ∧ (Entry.from_xml_loop e
        (.startTag "content" [("src", v1), ("type", "text/html")] :: .endTag "content" ::
          .startTag "content" [("src", v2), ("type", "text/html")] :: .endTag "content" :: s)
      = Entry.from_xml_loop { e with content := some (.reference v2 (some "text/html")) } s) := by
  refine ⟨?_, ?_, ?_, ?_, ?_⟩
  · rw [entry_loop_published_ok _ _ _ _ _ (atom_text_text_end _ _ _),
        entry_loop_published_ok _ _ _ _ _ (atom_text_text_end _ _ _)]
  · rw [entry_loop_summary_ok _ _ _ _ _ (atom_text_text_end _ _ _),
        entry_loop_summary_ok _ _ _ _ _ (atom_text_text_end _ _ _)]
  · rw [entry_loop_rights_ok _ _ _ _ _ (atom_text_text_end _ _ _),
        entry_loop_rights_ok _ _ _ _ _ (atom_text_text_end _ _ _)]
  · rw [entry_loop_source_ok _ _ _ _ _ (source_id_only _ _ _ _),
        entry_loop_source_ok _ _ _ _ _ (source_id_only _ _ _ _)]
  · rw [entry_loop_content_ok _ _ _ _ _ (content_src_ref _ _ _),
        entry_loop_content_ok _ _ _ _ _ (content_src_ref _ _ _)]

/-- C4: each matching child element of a list field (author, category,
contributor, link) appends exactly one decoded element at the end of the
corresponding list, whatever the list already holds — one element per
occurrence, in document order, no deduplication or overwriting. -/
theorem list_fields_append_in_order (e : Entry) (a b : Attrs) (t : String)
    (s : List XmlEvent) :
    (Entry.from_xml_loop e
        (.startTag "author" a ::
          .startTag "name" [] :: .charData t :: .endTag "name" :: .endTag "author" :: s)
      = Entry.from_xml_loop { e with authors := e.authors ++ [{ name := t }] } s)
    ∧ (Entry.from_xml_loop e (.startTag "category" b :: .endTag "category" :: s)
      = Entry.from_xml_loop
          { e with categories := e.categories ++
              [{ term := (find_attr "term" b).getD ""
                 scheme := find_attr "scheme" b
                 label := find_attr "label" b }] } s)
    ∧ (Entry.from_xml_loop e
        (.startTag "contributor" a ::
          .startTag "name" [] :: .charData t :: .endTag "name" :: .endTag "contributor" :: s)
      = Entry.from_xml_loop { e with contributors := e.contributors ++ [{ name := t }] } s)
    ∧ (Entry.from_xml_loop e (.startTag "link" b :: .endTag "link" :: s)
      = Entry.from_xml_loop
          { e with links := e.links ++
              [{ href := (find_attr "href" b).getD ""
                 rel := find_attr "rel" b
                 hreflang := find_attr "hreflang" b
                 mime_type := find_attr "type" b
                 title := find_attr "title" b
                 length := find_attr "length" b }] } s) := by
  refine ⟨?_, ?_, ?_, ?_⟩
  · rw [entry_loop_author_ok _ _ _ _ _ (person_name_only _ _ _ _)]
  · rw [entry_loop_category_ok _ _ _ _ _ (category_attrs_only _ _ _)]
  · rw [entry_loop_contributor_ok _ _ _ _ _ (person_name_only _ _ _ _)]
  · rw [entry_loop_link_ok _ _ _ _ _ (link_attrs_only _ _ _)]

/-- C5: required text fields (title, id, updated) default to the empty string
when the element is absent or its text is empty, while optional text fields
(published, summary, rights) are None when absent, and collapse to None when
present with empty text. -/
theorem required_default_optional_absent (e : Entry) (n : String) (a b : Attrs)
    (s : List XmlEvent) :
    (Entry.from_xml (.endTag n :: s) a = .ok ({}, s))
    ∧ (({} : Entry).title = "" ∧ ({} : Entry).id = "" ∧ ({} : Entry).updated = ""
        ∧ ({} : Entry).published = none ∧ ({} : Entry).summary = none
        ∧ ({} : Entry).rights = none)
    ∧ (Entry.from_xml_loop e (.startTag "title" b :: .endTag "title" :: s)
      = Entry.from_xml_loop { e with title := "" } s)
    ∧ (Entry.from_xml_loop e (.startTag "id" b :: .endTag "id" :: s)
      = Entry.from_xml_loop { e with id := "" } s)
    ∧ (Entry.from_xml_loop e (.startTag "updated" b :: .endTag "updated" :: s)
      = Entry.from_xml_loop { e with updated := "" } s)
    ∧ (Entry.from_xml_loop e (.startTag "published" b :: .endTag "published" :: s)
      = Entry.from_xml_loop { e with published := none } s)
    ∧ (Entry.from_xml_loop e (.startTag "summary" b :: .endTag "summary" :: s)
      = Entry.from_xml_loop { e with summary := none } s)
    ∧ (Entry.from_xml_loop e (.startTag "rights" b :: .endTag "rights" :: s)
      = Entry.from_xml_loop { e with rights := none } s) := by
  refine ⟨?_, by simp, ?_, ?_, ?_, ?_, ?_, ?_⟩
  · simp [Entry.from_xml, Entry.from_xml_loop]
  · rw [entry_loop_title_ok _ _ _ _ _ (atom_text_end _ _)]
    simp
  · rw [entry_loop_id_ok _ _ _ _ _ (atom_text_end _ _)]
    simp
  · rw [entry_loop_updated_ok _ _ _ _ _ (atom_text_end _ _)]
    simp
  · rw [entry_loop_published_ok _ _ _ _ _ (atom_text_end _ _)]
  · rw [entry_loop_summary_ok _ _ _ _ _ (atom_text_end _ _)]
  · rw [entry_loop_rights_ok _ _ _ _ _ (atom_text_end _ _)]


/-- C6: the concrete entry `<title>T</title><id>U</id><updated>...</updated>
<author><name>A</name></author><category term="x"/><unknownTag><deep/></unknownTag>
<published>...</published>` decodes successfully to the expected Entry, with
every other field at its default or absent value, the unknown tag contributing
nothing. -/
theorem concrete_entry_decodes :
    Entry.from_xml
        [.startTag "title" [], .charData "T", .endTag "title",
         .startTag "id" [], .charData "U", .endTag "id",
         .startTag "updated" [], .charData "2024-01-01T00:00:00Z", .endTag "updated",
         .startTag "author" [], .startTag "name" [], .charData "A", .endTag "name",
         .endTag "author",
         .startTag "category" [("term", "x")], .endTag "category",
         .startTag "unknownTag" [], .startTag "deep" [], .endTag "deep",
         .endTag "unknownTag",
         .startTag "published" [], .charData "2023-12-31T00:00:00Z", .endTag "published",
         .endTag "entry"] []
      = .ok ({ title := "T", id := "U", updated := "2024-01-01T00:00:00Z",
               authors := [{ name := "A" }], categories := [{ term := "x" }],
               published := some "2023-12-31T00:00:00Z" }, []) := by
  have hsk : read_to_end "unknownTag" 0
      [.startTag "deep" [], .endTag "deep", .endTag "unknownTag",
       .startTag "published" [], .charData "2023-12-31T00:00:00Z", .endTag "published",
       .endTag "entry"]
      = .ok [.startTag "published" [], .charData "2023-12-31T00:00:00Z",
             .endTag "published", .endTag "entry"] := by
    simp [read_to_end]
  unfold Entry.from_xml
  rw [entry_loop_title_ok _ _ _ _ _ (atom_text_text_end _ _ _),
      entry_loop_id_ok _ _ _ _ _ (atom_text_text_end _ _ _),
      entry_loop_updated_ok _ _ _ _ _ (atom_text_text_end _ _ _),
      entry_loop_author_ok _ _ _ _ _ (person_name_only _ _ _ _),
      entry_loop_category_ok _ _ _ _ _ (category_attrs_only _ _ _),
      entry_loop_unknown_ok _ _ _ _ _ (by simp [entry_names]) hsk,
      entry_loop_published_ok _ _ _ _ _ (atom_text_text_end _ _ _)]
  simp [Entry.from_xml_loop, opt_text, find_attr]

/-- C7: failures are passed through unchanged: a tokenizer error event fails the
decode with MalformedMarkup, and whenever a primitive (text extraction, element
skipping) or a sub-decoder (Person, Category, Link, Source, Content) invoked by
a dispatch row fails with some error, the whole decode returns exactly that
error, whatever the accumulated entry was — the result is the error alone. -/
theorem error_passthrough (e : Entry) (a : Attrs) (rest : List XmlEvent) (er : Error) :
    (Entry.from_xml_loop e (.malformed :: rest) = .error .malformedMarkup)
    ∧ (atom_text rest = .error er →
        Entry.from_xml_loop e (.startTag "id" a :: rest) = .error er)
    ∧ (atom_text rest = .error er →
        Entry.from_xml_loop e (.startTag "title" a :: rest) = .error er)
    ∧ (atom_text rest = .error er →
        Entry.from_xml_loop e (.startTag "updated" a :: rest) = .error er)
    ∧ (Person.from_xml rest a = .error er →
        Entry.from_xml_loop e (.startTag "author" a :: rest) = .error er)
    ∧ (Category.from_xml rest a = .error er →
        Entry.from_xml_loop e (.startTag "category" a :: rest) = .error er)
    ∧ (Person.from_xml rest a = .error er →
        Entry.from_xml_loop e (.startTag "contributor" a :: rest) = .error er)
    ∧ (Link.from_xml rest a = .error er →
        Entry.from_xml_loop e (.startTag "link" a :: rest) = .error er)
    ∧ (atom_text rest = .error er →
        Entry.from_xml_loop e (.startTag "published" a :: rest) = .error er)
    ∧ (Source.from_xml rest a = .error er →
        Entry.from_xml_loop e (.startTag "source" a :: rest) = .error er)
    ∧ (atom_text rest = .error er →
        Entry.from_xml_loop e (.startTag "summary" a :: rest) = .error er)
    ∧ (atom_text rest = .error er →
        Entry.from_xml_loop e (.startTag "rights" a :: rest) = .error er)
    ∧ (Content.from_xml rest a = .error er →
        Entry.from_xml_loop e (.startTag "content" a :: rest) = .error er)
    ∧ (∀ n, n ∉ entry_names → read_to_end n 0 rest = .error er →
        Entry.from_xml_loop e (.startTag n a :: rest) = .error er) :=
  ⟨by simp [Entry.from_xml_loop],
    fun h => entry_loop_id_err e a er rest h,
    fun h => entry_loop_title_err e a er rest h,
    fun h => entry_loop_updated_err e a er rest h,
    fun h => entry_loop_author_err e a er rest h,
    fun h => entry_loop_category_err e a er rest h,
    fun h => entry_loop_contributor_err e a er rest h,
    fun h => entry_loop_link_err e a er rest h,
    fun h => entry_loop_published_err e a er rest h,
    fun h => entry_loop_source_err e a er rest h,
    fun h => entry_loop_summary_err e a er rest h,
    fun h => entry_loop_rights_err e a er rest h,
    fun h => entry_loop_content_err e a er rest h,
    fun n hn h => entry_loop_unknown_err e n a er rest hn h⟩

/-- C7 witness: the pass-through conjuncts applied at a stream that ends right
after a dispatching start tag, so the invoked primitive or sub-decoder fails
with Eof and the decode returns exactly Eof. -/
theorem error_passthrough_witness :
    Entry.from_xml_loop {} [.startTag "title" []] = .error .eof
    ∧ Entry.from_xml_loop {} [.startTag "author" []] = .error .eof
    ∧ Entry.from_xml_loop {} [.startTag "weird" []] = .error .eof :=
  ⟨(error_passthrough {} [] [] .eof).2.2.1 (by rfl),
    (error_passthrough {} [] [] .eof).2.2.2.2.1 (by simp [Person.from_xml, Person.from_xml_loop]),
    (error_passthrough {} [] [] .eof).2.2.2.2.2.2.2.2.2.2.2.2.2 "weird"
      (by simp [entry_names]) (by rfl)⟩

/-- C8 counterexample: a title element whose qualified name carries a namespace
prefix (`a:title`) is NOT dispatched as `title`: the decode leaves the title
field at its default empty string, while the unprefixed input populates it. -/
theorem prefixed_title_not_dispatched :
    Entry.from_xml
        [.startTag "a:title" [], .charData "T", .endTag "a:title", .endTag "entry"] []
      = .ok ({}, [])
    ∧ Entry.from_xml
        [.startTag "title" [], .charData "T", .endTag "title", .endTag "entry"] []
      = .ok ({ title := "T" }, [])
    ∧ ({} : Entry) ≠ ({ title := "T" } : Entry) := by
  refine ⟨?_, ?_, by decide⟩
  · simp [Entry.from_xml, Entry.from_xml_loop, read_to_end]
  · simp [Entry.from_xml, Entry.from_xml_loop, atom_text, atom_text_go, opt_text]

/-- C8 amended: dispatch compares the event's full qualified name byte-for-byte
against the table, so a recognized local name carrying a namespace prefix (such
as `a:title`) is treated as unknown: its whole element is skipped and the decode
of the remainder — including the title field — is unchanged. -/
theorem prefixed_title_skipped (e : Entry) (a : Attrs) (t : String) (s : List XmlEvent) :
    Entry.from_xml_loop e
        (.startTag "a:title" a :: .charData t :: .endTag "a:title" :: s)
      = Entry.from_xml_loop e s :=
  entry_loop_unknown_ok e "a:title" a _ s (by simp [entry_names]) (by simp [read_to_end])

/-- C9: the result of `Entry::from_xml` is completely independent of the
attribute set carried on the entry's own start tag, which is discarded unread. -/
theorem attributes_ignored : ∀ (s : List XmlEvent) (a1 a2 : Attrs),
    Entry.from_xml s a1 = Entry.from_xml s a2 := fun _ _ _ => rfl

/-- C10: the dispatch loop terminates successfully at the first end-tag event
at its own level, whatever that end tag's name, returning the accumulated
entry. -/
theorem end_tag_any_name_terminates (e : Entry) (n : String) (a : Attrs)
    (s : List XmlEvent) :
    Entry.from_xml_loop e (.endTag n :: s) = .ok (e, s)
    ∧ Entry.from_xml (.endTag n :: s) a = .ok ({}, s) := by
  constructor <;> simp [Entry.from_xml, Entry.from_xml_loop]

end Atom
